import Mathlib

/-!
Shallow embedding of the deterministic game core of the bomba-man repository
(`src/src/utils/game.ts`), together with proofs checking the repository's
specification against it.

JavaScript `number` values flowing through the core (pixel coordinates, grid
quotients, sizes) are embedded as `ℚ`: every arithmetic operation the code
performs on them (addition of units, division by the movement size,
comparisons) is exact rational arithmetic on the inputs the game produces.
A JS object indexed by numbers (the game map, its rows) holds values exactly
at its integer keys `0 .. N-1`; indexing it with any other number yields
`undefined`, which we embed as `Option.none`.
-/

namespace BombaMan

/-- Modelled from the spec: the repository's `enums` module (`Tile`,
`Explosive`, `Player`, `PowerUp` and `FIRE_VALUES`) is not under `src/`.
The spec's data model lists the possible cell values: structural tiles
`Empty`, `Breaking` (destructible), `NonBreaking` (indestructible); transient
explosive markers `Bomb`, `FireHorizontal`, `FireVertical`; and player /
power-up occupant overlay markers. -/
inductive PlayerId where
  | P1
  | P2
  | P3
  | P4
deriving DecidableEq, Repr

/-- The four power-up kinds of the spec's data model. -/
inductive PowerUpKind where
  | Life
  | BombCount
  | BombSize
  | MovementSpeed
deriving DecidableEq, Repr

/-- One cell value of the game map (`Square` in the source's types): a
structural `Tile`, an `Explosive` marker, or an occupant overlay. -/
inductive Square where
  | Empty
  | Breaking
  | NonBreaking
  | Bomb
  | FireHorizontal
  | FireVertical
  | player (id : PlayerId)
  | powerUp (kind : PowerUpKind)
deriving DecidableEq, Repr

/-- Grid coordinates (`SquareCoordinates` in the source): the quotient of a
pixel coordinate by the movement size, so a JS number pair. -/
structure SquareCoordinates where
  xSquare : ℚ
  ySquare : ℚ
deriving DecidableEq, Repr

/-- Pixel coordinates (`TopLeftCoordinates` in the source). -/
structure TopLeftCoordinates where
  top : ℚ
  left : ℚ
deriving DecidableEq, Repr

/-- The source's `Coordinates` union (`SquareCoordinates | TopLeftCoordinates`),
disambiguated in the source by structural sniffing on the `xSquare` field;
here an explicit sum. -/
inductive Coordinates where
  | square (c : SquareCoordinates)
  | topLeft (c : TopLeftCoordinates)
deriving DecidableEq, Repr

/-- `topLeftCoordinatesToSquareCoordinates` (game.ts:44). -/
def topLeftCoordinatesToSquareCoordinates (c : TopLeftCoordinates)
    (movementSize : ℚ) : SquareCoordinates :=
  { ySquare := c.top / movementSize, xSquare := c.left / movementSize }

/-- `squareCoordinatesToTopLeftCoordinates` (game.ts:60). -/
def squareCoordinatesToTopLeftCoordinates (c : SquareCoordinates)
    (movementSize : ℚ) : TopLeftCoordinates :=
  { top := c.ySquare * movementSize, left := c.xSquare * movementSize }

/-- `getTopLeftCoordinatesFromSquareOrSquareCoordinates` (game.ts:70). -/
def getTopLeftCoordinatesFromSquareOrSquareCoordinates (c : Coordinates)
    (movementSize : ℚ) : TopLeftCoordinates :=
  match c with
  | .square s => squareCoordinatesToTopLeftCoordinates s movementSize
  | .topLeft t => t

/-- `getSquareCoordinatesFromSquareOrTopLeftCoordinates` (game.ts:91). -/
def getSquareCoordinatesFromSquareOrTopLeftCoordinates (c : Coordinates)
    (movementSize : ℚ) : SquareCoordinates :=
  match c with
  | .square s => s
  | .topLeft t => topLeftCoordinatesToSquareCoordinates t movementSize

/-- The game map: a JS object of `size` rows, each a JS object of `size`
cells (`GameMap` in the source's types). `tiles` gives the cell stored at
integer keys `y, x` with `y, x < size`. -/
structure GameMap where
  size : ℕ
  tiles : ℕ → ℕ → Square

/-- The integer key a JS number `q` addresses in an object whose keys are
`0 .. size-1`, when there is one: indexing with a negative, too-large or
fractional number yields `undefined`. -/
def qIndex (size : ℕ) (q : ℚ) : Option ℕ :=
  if q.den = 1 ∧ 0 ≤ q.num ∧ q.num < (size : ℤ) then some q.num.toNat else none

/-- `gameMap[y]?.[x]` — and `gameMap[y][x]` wherever that dereference is
defined. `none` is JS `undefined`. -/
def GameMap.atQ (g : GameMap) (y x : ℚ) : Option Square :=
  match qIndex g.size y, qIndex g.size x with
  | some yi, some xi => some (g.tiles yi xi)
  | _, _ => none

/-- `GameConfig['sizes']` (the sizes block of the default config,
game.ts:274). -/
structure GameSizes where
  map : ℕ
  character : ℚ
  tile : ℚ
  movement : ℚ
  bomb : ℚ
deriving DecidableEq, Repr

/-- `canMove` (game.ts:326): grid-bounds check on the converted coordinate
plus obstacle check on the destination cell, `gameMap[ySquare]?.[xSquare]`. -/
def canMove (coordinates : Coordinates) (gameMap : GameMap)
    (sizes : GameSizes) : Bool :=
  let minTopLeft : ℚ := 0
  let maxTopLeft : ℚ := (sizes.map : ℚ) - 1
  let sq := getSquareCoordinatesFromSquareOrTopLeftCoordinates coordinates sizes.movement
  let nextSquare := gameMap.atQ sq.ySquare sq.xSquare
  let isObstacle :=
    nextSquare = some Square.Breaking ∨ nextSquare = some Square.NonBreaking ∨
      nextSquare = some Square.Bomb
  let isHorizontalEnd := sq.xSquare < minTopLeft ∨ sq.xSquare > maxTopLeft
  let isVerticalEnd := sq.ySquare < minTopLeft ∨ sq.ySquare > maxTopLeft
  !(decide isObstacle) && !(decide isHorizontalEnd) && !(decide isVerticalEnd)

/-- Per-kind numeric table (`Record<PowerUp, number>` in the source). -/
structure PowerUpValues where
  Life : ℚ
  BombCount : ℚ
  BombSize : ℚ
  MovementSpeed : ℚ
deriving DecidableEq, Repr

/-- Field lookup `table[kind]`. -/
def PowerUpValues.get (v : PowerUpValues) (kind : PowerUpKind) : ℚ :=
  match kind with
  | .Life => v.Life
  | .BombCount => v.BombCount
  | .BombSize => v.BombSize
  | .MovementSpeed => v.MovementSpeed

/-- `GameConfig['powerUps']`. -/
structure PowerUpConfig where
  chance : ℕ
  defaults : PowerUpValues
  increaseValues : PowerUpValues
  maxDropCount : PowerUpValues
deriving DecidableEq, Repr

/-- `GameConfig['tiles']`. -/
structure TilesConfig where
  blockTileChance : ℕ
deriving DecidableEq, Repr

/-- `GameConfig['duration']['bomb']`. -/
structure BombDurationConfig where
  firing : ℚ
  exploding : ℚ
deriving DecidableEq, Repr

/-- `GameConfig['duration']`. -/
structure DurationConfig where
  bomb : BombDurationConfig
deriving DecidableEq, Repr

/-- Keyboard binding of one player; the values are `keycode-js` code
strings. -/
structure PlayerKeyboardConfig where
  MoveUp : String
  MoveRight : String
  MoveDown : String
  MoveLeft : String
  DropBomb : String
deriving DecidableEq, Repr

/-- `GameConfig['keyboardConfig']`: a partial record over the player slots
(the default config binds only P1 and P2). -/
structure KeyboardConfig where
  P1 : Option PlayerKeyboardConfig
  P2 : Option PlayerKeyboardConfig
  P3 : Option PlayerKeyboardConfig
  P4 : Option PlayerKeyboardConfig
deriving DecidableEq, Repr

/-- `keyboardConfig[playerId]`; `none` is JS `undefined`. -/
def KeyboardConfig.get (k : KeyboardConfig) (id : PlayerId) :
    Option PlayerKeyboardConfig :=
  match id with
  | .P1 => k.P1
  | .P2 => k.P2
  | .P3 => k.P3
  | .P4 => k.P4

/-- `GameConfig` (store/redux types, shape as used by game.ts). -/
structure GameConfig where
  powerUps : PowerUpConfig
  tiles : TilesConfig
  sizes : GameSizes
  duration : DurationConfig
  keyboardConfig : KeyboardConfig
deriving DecidableEq, Repr

/-- `generateDefaultGameConfig` (game.ts:248).  The keyboard code strings are
the values of the `keycode-js` constants the source names
(`CODE_W = "KeyW"`, `CODE_SPACE = "Space"`, `CODE_UP = "ArrowUp"`, ...). -/
def generateDefaultGameConfig : GameConfig :=
  { powerUps :=
      { chance := 5
        defaults := { Life := 1, BombCount := 1, BombSize := 1, MovementSpeed := 200 }
        increaseValues := { Life := 1, BombCount := 1, BombSize := 1, MovementSpeed := -15 }
        maxDropCount := { Life := 4, BombCount := 6, BombSize := 6, MovementSpeed := 5 } }
    tiles := { blockTileChance := 1 }
    sizes := { map := 15, character := 32, tile := 32, movement := 32, bomb := 16 }
    duration := { bomb := { firing := 2, exploding := 1 } }
    keyboardConfig :=
      { P1 := some { MoveUp := "KeyW", MoveRight := "KeyD", MoveDown := "KeyS",
                     MoveLeft := "KeyA", DropBomb := "Space" }
        P2 := some { MoveUp := "ArrowUp", MoveRight := "ArrowRight", MoveDown := "ArrowDown",
                     MoveLeft := "ArrowLeft", DropBomb := "Semicolon" }
        P3 := none
        P4 := none } }

/-- `getDefaultPowerUps` (game.ts:198): every power-up count starts at 0. -/
def getDefaultPowerUps : PowerUpValues :=
  { Life := 0, BombCount := 0, BombSize := 0, MovementSpeed := 0 }

/-- `PlayerState`: death count plus accumulated power-up counts. -/
structure PlayerState where
  deathCount : ℕ
  powerUps : PowerUpValues
deriving DecidableEq, Repr

/-- `PlayerConfig`: one player slot of the game state. -/
structure PlayerConfig where
  id : PlayerId
  coordinates : TopLeftCoordinates
  state : PlayerState
  keyboardConfig : Option PlayerKeyboardConfig
deriving DecidableEq, Repr

/-- `getDefaultPlayerStartSquareCoordinates` (game.ts:112): the four grid
corners, in player-slot order. -/
def getDefaultPlayerStartSquareCoordinates (mapSize : ℕ) (id : PlayerId) :
    SquareCoordinates :=
  let minSize : ℚ := 0
  let maxSize : ℚ := (mapSize : ℚ) - 1
  match id with
  | .P1 => { ySquare := minSize, xSquare := minSize }
  | .P2 => { ySquare := minSize, xSquare := maxSize }
  | .P3 => { ySquare := maxSize, xSquare := maxSize }
  | .P4 => { ySquare := maxSize, xSquare := minSize }

/-- `generatePlayer` (game.ts:205). -/
def generatePlayer (playerId : PlayerId) (config : GameConfig)
    (coordinates : Option Coordinates) : PlayerConfig :=
  let defaultKeyboardConfig := config.keyboardConfig.get playerId
  let topLeftCoordinates := getTopLeftCoordinatesFromSquareOrSquareCoordinates
    (coordinates.getD
      (Coordinates.square
        (getDefaultPlayerStartSquareCoordinates config.sizes.map playerId)))
    config.sizes.movement
  { id := playerId
    coordinates := topLeftCoordinates
    state := { deathCount := 0, powerUps := getDefaultPowerUps }
    keyboardConfig := defaultKeyboardConfig }

/-- `getForbiddenStartCoordinates` (game.ts:125): each start corner plus its
immediate horizontal and vertical neighbours toward the map's inside, per
the `xyDiff` table `[[1,1],[-1,1],[-1,-1],[1,-1]]`. -/
def getForbiddenStartCoordinates (mapSize : ℕ) : List SquareCoordinates :=
  let d := getDefaultPlayerStartSquareCoordinates mapSize
  let xyDiff : List (ℚ × ℚ) := [(1, 1), (-1, 1), (-1, -1), (1, -1)]
  (List.zip [d PlayerId.P1, d PlayerId.P2, d PlayerId.P3, d PlayerId.P4]
      xyDiff).flatMap
    (fun p =>
      [p.1,
       { xSquare := p.1.xSquare + p.2.1, ySquare := p.1.ySquare },
       { xSquare := p.1.xSquare, ySquare := p.1.ySquare + p.2.2 }])

/-- `generateRandomGameMap` (game.ts:167).

Modelled from the spec where the source is missing: `getRandomInt`
(`utils/math`, not under `src/`) returns a uniform random integer in
`[0, n)`; we thread the random source explicitly as one draw per cell
(`rand y x`), reduced modulo the pool size so every draw is in range.
`Object.keys(Tile)` is the spec's list of structural tile kinds — Empty,
Breaking, NonBreaking (the `Tile` enum itself is not under `src/`).

After the random draw the source walks the forbidden coordinates and
overwrites any non-Empty tile there with Empty, which forces those cells
to Empty; a forbidden coordinate that matches no integer key of the map
leaves every cell unchanged. -/
def generateRandomGameMap (mapSize : ℕ) (blockTileChance : ℕ)
    (forbiddenCoordinates : Option (List SquareCoordinates))
    (rand : ℕ → ℕ → ℕ) : GameMap :=
  let fc := forbiddenCoordinates.getD (getForbiddenStartCoordinates mapSize)
  let tiles : List Square :=
    [Square.Empty, Square.Breaking, Square.NonBreaking] ++
      List.replicate (11 - blockTileChance) Square.Empty
  { size := mapSize
    tiles := fun indOuter indInner =>
      if fc.any (fun c =>
          decide (c.ySquare = (indOuter : ℚ)) && decide (c.xSquare = (indInner : ℚ))) then
        Square.Empty
      else tiles.getD (rand indOuter indInner % tiles.length) Square.Empty }

/-- `Bomb` (store/redux types). -/
structure Bomb where
  id : String
  explosionSize : ℚ
  top : ℚ
  left : ℚ
  playerId : PlayerId
deriving DecidableEq, Repr

/-- `Players`: a partial record of player slots. -/
structure PlayersRecord where
  P1 : Option PlayerConfig
  P2 : Option PlayerConfig
  P3 : Option PlayerConfig
  P4 : Option PlayerConfig
deriving DecidableEq, Repr

/-- `GameState` (store/redux types, shape as built by game.ts). `bombs` and
`powerUps` are JS records keyed by id / coordinate string; only their byte
of content matters here (both start empty). -/
structure GameState where
  players : PlayersRecord
  gameMap : GameMap
  bombs : List Bomb
  powerUps : List (SquareCoordinates × PowerUpKind)
  config : GameConfig
  is3D : Bool
  isSideView : Bool
  animationCounter : ℕ

/-- `generateDefaultGameState` (game.ts:306).  Note that the source stamps
`generateDefaultGameConfig()` into the returned state's `config` field — not
the `_config` it destructured the sizes from. -/
def generateDefaultGameState (config : Option GameConfig)
    (rand : ℕ → ℕ → ℕ) : GameState :=
  let _config := config.getD generateDefaultGameConfig
  { players :=
      { P1 := some (generatePlayer PlayerId.P1 _config none)
        P2 := none
        P3 := none
        P4 := none }
    gameMap := generateRandomGameMap _config.sizes.map _config.tiles.blockTileChance
      none rand
    bombs := []
    powerUps := []
    config := generateDefaultGameConfig
    is3D := false
    isSideView := false
    animationCounter := 0 }

/-- `isSquareOutsideBoundaries` (game.ts:507). -/
def isSquareOutsideBoundaries (squareCoordinate : ℚ) (mapSize : ℕ) : Bool :=
  decide (squareCoordinate < 0) || decide (squareCoordinate ≥ (mapSize : ℚ))

/-- `getTilesToBreak` (game.ts:494): `[{ySquare, xSquare}]` when the cell is a
Breaking tile, else `[]`.  The source dereferences `gameMap[ySquare][xSquare]`
without a guard; every call site passes coordinates the explosion walk
recorded at defined cells, where the dereference equals `GameMap.atQ`. -/
def getTilesToBreak (gameMap : GameMap) (ySquare xSquare : ℚ) :
    List SquareCoordinates :=
  if gameMap.atQ ySquare xSquare = some Square.Breaking then
    [{ ySquare := ySquare, xSquare := xSquare }]
  else []

/-- `CoordinatesToSetOnFire` (game.ts:488): the fire set partitioned by
propagation axis. -/
structure CoordinatesToSetOnFire where
  horizontal : List SquareCoordinates
  vertical : List SquareCoordinates
  core : List SquareCoordinates
deriving DecidableEq, Repr

/-- The inner `for (let j = 0; j < explosionSize; j++)` loop of
`getExplosionSquareCoordinatesFromBomb` (game.ts:602), for one direction
`(xDiff, yDiff)`: one recursive step per iteration, carrying the loop state
`(currentX, currentY, shouldContinue)` and returning the coordinates the
iterations push into this direction's bucket, in push order.  Once
`shouldContinue` is false every remaining iteration hits the leading
`continue` and leaves all state unchanged.

The `none` arm of the dereference cannot be reached from a grid-aligned bomb
coordinate: the boundary check has passed, and a boundary-checked integer
step lands on a defined cell.  (On a non-integer coordinate the JS code
would fault or read `undefined`; the game never produces one here.) -/
def explosionRayLoop (gameMap : GameMap) (mapSize : ℕ) (checkOnlyFire : Bool)
    (xDiff yDiff : ℚ) : ℕ → ℚ → ℚ → Bool → List SquareCoordinates
  | 0, _, _, _ => []
  | j + 1, currentX, currentY, shouldContinue =>
    if !shouldContinue then
      explosionRayLoop gameMap mapSize checkOnlyFire xDiff yDiff j
        currentX currentY shouldContinue
    else
      let cx := currentX + xDiff
      let cy := currentY + yDiff
      if isSquareOutsideBoundaries cx mapSize ||
          isSquareOutsideBoundaries cy mapSize then
        explosionRayLoop gameMap mapSize checkOnlyFire xDiff yDiff j cx cy
          shouldContinue
      else
        match gameMap.atQ cy cx with
        | none =>
          explosionRayLoop gameMap mapSize checkOnlyFire xDiff yDiff j cx cy
            shouldContinue
        | some currentSquare =>
          if checkOnlyFire &&
              !(currentSquare = Square.FireHorizontal ∨
                currentSquare = Square.FireVertical : Bool) then
            -- not a fire marker: with `checkOnlyFire` the iteration continues
            -- before the Breaking / NonBreaking classification is reached
            explosionRayLoop gameMap mapSize checkOnlyFire xDiff yDiff j cx cy
              shouldContinue
          else
            -- with `checkOnlyFire` the coordinate is pushed here and then the
            -- switch below pushes it a second time (fire markers take the
            -- default arm)
            (if checkOnlyFire then [{ xSquare := cx, ySquare := cy }] else []) ++
              match currentSquare with
              | Square.Breaking =>
                { xSquare := cx, ySquare := cy } ::
                  explosionRayLoop gameMap mapSize checkOnlyFire xDiff yDiff j
                    cx cy false
              | Square.NonBreaking =>
                explosionRayLoop gameMap mapSize checkOnlyFire xDiff yDiff j
                  cx cy false
              | _ =>
                { xSquare := cx, ySquare := cy } ::
                  explosionRayLoop gameMap mapSize checkOnlyFire xDiff yDiff j
                    cx cy true

/-- `getExplosionSquareCoordinatesFromBomb` (game.ts:514).  The four rays run
in order up, right, down, left with bucket axes vertical, horizontal,
vertical, horizontal, so the vertical bucket is the up-ray pushes followed by
the down-ray pushes, and the horizontal bucket right-then-left.  The core
bucket holds the bomb's own square from the start.  `explosionSize` is a JS
number; `for (j = 0; j < explosionSize; j++)` runs `explosionSize.toNat`
iterations for an integer size. -/
def getExplosionSquareCoordinatesFromBomb (gameMap : GameMap)
    (coordinates : Coordinates) (explosionSize : ℤ) (sizes : GameSizes)
    (checkOnlyFire : Bool) : CoordinatesToSetOnFire :=
  let bomb := getSquareCoordinatesFromSquareOrTopLeftCoordinates coordinates
    sizes.movement
  let fuel := explosionSize.toNat
  let up := explosionRayLoop gameMap sizes.map checkOnlyFire 0 (-1) fuel
    bomb.xSquare bomb.ySquare true
  let right := explosionRayLoop gameMap sizes.map checkOnlyFire 1 0 fuel
    bomb.xSquare bomb.ySquare true
  let down := explosionRayLoop gameMap sizes.map checkOnlyFire 0 1 fuel
    bomb.xSquare bomb.ySquare true
  let left := explosionRayLoop gameMap sizes.map checkOnlyFire (-1) 0 fuel
    bomb.xSquare bomb.ySquare true
  { horizontal := right ++ left
    vertical := up ++ down
    core := [bomb] }

/-- The value `getExplosionResults` returns (game.ts:704). -/
structure ExplosionResults where
  coordinatesToSetOnFire : CoordinatesToSetOnFire
  tilesToBreak : List SquareCoordinates
deriving DecidableEq, Repr

/-- `getExplosionResults` (game.ts:664): copies the per-direction buckets in
key order (horizontal, vertical, core) and, for each recorded coordinate in
that order, appends `getTilesToBreak` for it.  The `players` argument is
unused by the source body. -/
def getExplosionResults (gameMap : GameMap) (players : PlayersRecord)
    (bombCoordinates : TopLeftCoordinates) (explosionSize : ℤ)
    (sizes : GameSizes) (checkOnlyFire : Bool) : ExplosionResults :=
  let explosionSquares := getExplosionSquareCoordinatesFromBomb gameMap
    (Coordinates.topLeft bombCoordinates) explosionSize sizes checkOnlyFire
  { coordinatesToSetOnFire :=
      { horizontal := explosionSquares.horizontal
        vertical := explosionSquares.vertical
        core := explosionSquares.core }
    tilesToBreak :=
      (explosionSquares.horizontal ++ explosionSquares.vertical ++
          explosionSquares.core).flatMap
        (fun c => getTilesToBreak gameMap c.ySquare c.xSquare) }

/-- What one spec-side ray records: the cells set on fire and the cells to
break, in visit order. -/
structure RaySpecResult where
  onFire : List SquareCoordinates
  toBreak : List SquareCoordinates
deriving DecidableEq, Repr

/-- Modelled from the spec's words (§4.5, refinement reference for the code's
ray walk): one cardinal-direction walk of up to `explosionSize` steps away
from the bomb.  A step outside the map boundaries is skipped — not recorded
and not terminating.  At an in-bounds step the cell's tile is classified:
`Breaking` → record it as on-fire and as to-break, then stop the ray;
`NonBreaking` → stop the ray without recording; any other tile → record it
as on-fire and continue. -/
def specExplosionRay (gameMap : GameMap) (mapSize : ℕ) (xDiff yDiff : ℚ) :
    ℕ → ℚ → ℚ → RaySpecResult
  | 0, _, _ => { onFire := [], toBreak := [] }
  | j + 1, x, y =>
    let cx := x + xDiff
    let cy := y + yDiff
    if isSquareOutsideBoundaries cx mapSize ||
        isSquareOutsideBoundaries cy mapSize then
      specExplosionRay gameMap mapSize xDiff yDiff j cx cy
    else
      match gameMap.atQ cy cx with
      | some Square.Breaking =>
        { onFire := [{ xSquare := cx, ySquare := cy }]
          toBreak := [{ xSquare := cx, ySquare := cy }] }
      | some Square.NonBreaking => { onFire := [], toBreak := [] }
      | _ =>
        let r := specExplosionRay gameMap mapSize xDiff yDiff j cx cy
        { onFire := { xSquare := cx, ySquare := cy } :: r.onFire
          toBreak := r.toBreak }

/-- Instrumentation of `explosionRayLoop`: the branch structure is identical,
but instead of the recorded bucket it returns the coordinates at which the
loop body dereferences the map (`gameMap[currentY][currentX]`, game.ts:617),
in order — each in-bounds iteration with `shouldContinue` still true performs
exactly one such read, after the boundary check has passed. -/
def explosionRayDereferences (gameMap : GameMap) (mapSize : ℕ)
    (checkOnlyFire : Bool) (xDiff yDiff : ℚ) :
    ℕ → ℚ → ℚ → Bool → List SquareCoordinates
  | 0, _, _, _ => []
  | j + 1, currentX, currentY, shouldContinue =>
    if !shouldContinue then
      explosionRayDereferences gameMap mapSize checkOnlyFire xDiff yDiff j
        currentX currentY shouldContinue
    else
      let cx := currentX + xDiff
      let cy := currentY + yDiff
      if isSquareOutsideBoundaries cx mapSize ||
          isSquareOutsideBoundaries cy mapSize then
        explosionRayDereferences gameMap mapSize checkOnlyFire xDiff yDiff j
          cx cy shouldContinue
      else
        { xSquare := cx, ySquare := cy } ::
          match gameMap.atQ cy cx with
          | none =>
            explosionRayDereferences gameMap mapSize checkOnlyFire xDiff yDiff
              j cx cy shouldContinue
          | some currentSquare =>
            if checkOnlyFire &&
                !(currentSquare = Square.FireHorizontal ∨
                  currentSquare = Square.FireVertical : Bool) then
              explosionRayDereferences gameMap mapSize checkOnlyFire xDiff
                yDiff j cx cy shouldContinue
            else
              match currentSquare with
              | Square.Breaking =>
                explosionRayDereferences gameMap mapSize checkOnlyFire xDiff
                  yDiff j cx cy false
              | Square.NonBreaking =>
                explosionRayDereferences gameMap mapSize checkOnlyFire xDiff
                  yDiff j cx cy false
              | _ =>
                explosionRayDereferences gameMap mapSize checkOnlyFire xDiff
                  yDiff j cx cy true

/-- Every map coordinate the explosion computation dereferences, in order:
the reads of the four ray walks, then the read `getTilesToBreak` performs
for each coordinate recorded in the buckets (in the aggregation order of
`getExplosionResults`). -/
def getExplosionDereferences (gameMap : GameMap)
    (bombCoordinates : TopLeftCoordinates) (explosionSize : ℤ)
    (sizes : GameSizes) (checkOnlyFire : Bool) : List SquareCoordinates :=
  let bomb := getSquareCoordinatesFromSquareOrTopLeftCoordinates
    (Coordinates.topLeft bombCoordinates) sizes.movement
  let fuel := explosionSize.toNat
  let squares := getExplosionSquareCoordinatesFromBomb gameMap
    (Coordinates.topLeft bombCoordinates) explosionSize sizes checkOnlyFire
  explosionRayDereferences gameMap sizes.map checkOnlyFire 0 (-1) fuel
      bomb.xSquare bomb.ySquare true ++
    explosionRayDereferences gameMap sizes.map checkOnlyFire 1 0 fuel
      bomb.xSquare bomb.ySquare true ++
    explosionRayDereferences gameMap sizes.map checkOnlyFire 0 1 fuel
      bomb.xSquare bomb.ySquare true ++
    explosionRayDereferences gameMap sizes.map checkOnlyFire (-1) 0 fuel
      bomb.xSquare bomb.ySquare true ++
    (squares.horizontal ++ squares.vertical ++ squares.core)

/-! ## Helper lemmas -/

theorem qIndex_intCast (size : ℕ) (k : ℤ) :
    qIndex size (k : ℚ) =
      if 0 ≤ k ∧ k < (size : ℤ) then some k.toNat else none := by
  simp [qIndex]

theorem qIndex_natCast (size k : ℕ) :
    qIndex size (k : ℚ) = if k < size then some k else none := by
  have h := qIndex_intCast size (k : ℤ)
  rw [show ((k : ℤ) : ℚ) = (k : ℚ) by push_cast; ring] at h
  rw [h]
  by_cases hk : k < size
  · rw [if_pos (by omega), if_pos hk, Int.toNat_natCast]
  · rw [if_neg (by omega), if_neg hk]

theorem qIndex_eq_none_of_not_int (size : ℕ) (q : ℚ)
    (h : ∀ k : ℤ, q ≠ (k : ℚ)) : qIndex size q = none := by
  unfold qIndex
  rw [if_neg]
  rintro ⟨hden, -, -⟩
  exact h q.num ((Rat.den_eq_one_iff q).mp hden).symm

theorem atQ_natCast (g : GameMap) (yi xi : ℕ) (hy : yi < g.size)
    (hx : xi < g.size) : g.atQ (yi : ℚ) (xi : ℚ) = some (g.tiles yi xi) := by
  unfold GameMap.atQ
  rw [qIndex_natCast, qIndex_natCast, if_pos hy, if_pos hx]

theorem isSquareOutsideBoundaries_eq_false_iff (q : ℚ) (n : ℕ) :
    isSquareOutsideBoundaries q n = false ↔ 0 ≤ q ∧ q < (n : ℚ) := by
  rw [isSquareOutsideBoundaries, Bool.or_eq_false_iff,
    decide_eq_false_iff_not, decide_eq_false_iff_not, not_lt, ge_iff_le, not_le]

/-! ## C7 — pixel/grid round trip -/

/-- C7: for every pixel coordinate that is unit-aligned (top and left exact
integer multiples of the movement unit `u > 0`), converting to a grid
(square) coordinate and back yields exactly the original pixel coordinate. -/
theorem topLeft_square_roundTrip (p : TopLeftCoordinates) (u : ℚ) (hu : 0 < u)
    (htop : ∃ k : ℤ, p.top = k * u) (hleft : ∃ k : ℤ, p.left = k * u) :
    squareCoordinatesToTopLeftCoordinates
      (topLeftCoordinatesToSquareCoordinates p u) u = p := by
  obtain ⟨t, l⟩ := p
  simp only [squareCoordinatesToTopLeftCoordinates,
    topLeftCoordinatesToSquareCoordinates, TopLeftCoordinates.mk.injEq]
  exact ⟨div_mul_cancel₀ t (ne_of_gt hu), div_mul_cancel₀ l (ne_of_gt hu)⟩

/-- Witness for C7 at `p = (top 64, left 32)`, `u = 32`. -/
theorem topLeft_square_roundTrip_witness :
    squareCoordinatesToTopLeftCoordinates
      (topLeftCoordinatesToSquareCoordinates ⟨64, 32⟩ 32) 32 =
      (⟨64, 32⟩ : TopLeftCoordinates) :=
  topLeft_square_roundTrip ⟨64, 32⟩ 32 (by norm_num)
    ⟨2, by norm_num⟩ ⟨1, by norm_num⟩

/-! ## C2 — `canMove` -/

/-- C2: `canMove` returns false exactly when the target's grid coordinate has
column or row outside `[0, mapSize-1]` or the destination cell holds a
Breaking tile, a NonBreaking tile or an active Bomb; in particular an
in-bounds target whose cell holds Empty, a fire marker, or a player /
power-up occupant is legal. -/
theorem canMove_false_iff (c : Coordinates) (g : GameMap) (sizes : GameSizes) :
    (canMove c g sizes = false ↔
      ((getSquareCoordinatesFromSquareOrTopLeftCoordinates c sizes.movement).xSquare < 0 ∨
       (getSquareCoordinatesFromSquareOrTopLeftCoordinates c sizes.movement).xSquare >
         (sizes.map : ℚ) - 1 ∨
       (getSquareCoordinatesFromSquareOrTopLeftCoordinates c sizes.movement).ySquare < 0 ∨
       (getSquareCoordinatesFromSquareOrTopLeftCoordinates c sizes.movement).ySquare >
         (sizes.map : ℚ) - 1 ∨
       g.atQ (getSquareCoordinatesFromSquareOrTopLeftCoordinates c sizes.movement).ySquare
         (getSquareCoordinatesFromSquareOrTopLeftCoordinates c sizes.movement).xSquare =
           some Square.Breaking ∨
       g.atQ (getSquareCoordinatesFromSquareOrTopLeftCoordinates c sizes.movement).ySquare
         (getSquareCoordinatesFromSquareOrTopLeftCoordinates c sizes.movement).xSquare =
           some Square.NonBreaking ∨
       g.atQ (getSquareCoordinatesFromSquareOrTopLeftCoordinates c sizes.movement).ySquare
         (getSquareCoordinatesFromSquareOrTopLeftCoordinates c sizes.movement).xSquare =
           some Square.Bomb)) ∧
    ((0 ≤ (getSquareCoordinatesFromSquareOrTopLeftCoordinates c sizes.movement).xSquare ∧
      (getSquareCoordinatesFromSquareOrTopLeftCoordinates c sizes.movement).xSquare ≤
        (sizes.map : ℚ) - 1 ∧
      0 ≤ (getSquareCoordinatesFromSquareOrTopLeftCoordinates c sizes.movement).ySquare ∧
      (getSquareCoordinatesFromSquareOrTopLeftCoordinates c sizes.movement).ySquare ≤
        (sizes.map : ℚ) - 1 ∧
      (g.atQ (getSquareCoordinatesFromSquareOrTopLeftCoordinates c sizes.movement).ySquare
         (getSquareCoordinatesFromSquareOrTopLeftCoordinates c sizes.movement).xSquare =
           some Square.Empty ∨
       g.atQ (getSquareCoordinatesFromSquareOrTopLeftCoordinates c sizes.movement).ySquare
         (getSquareCoordinatesFromSquareOrTopLeftCoordinates c sizes.movement).xSquare =
           some Square.FireHorizontal ∨
       g.atQ (getSquareCoordinatesFromSquareOrTopLeftCoordinates c sizes.movement).ySquare
         (getSquareCoordinatesFromSquareOrTopLeftCoordinates c sizes.movement).xSquare =
           some Square.FireVertical ∨
       (∃ p, g.atQ
         (getSquareCoordinatesFromSquareOrTopLeftCoordinates c sizes.movement).ySquare
         (getSquareCoordinatesFromSquareOrTopLeftCoordinates c sizes.movement).xSquare =
           some (Square.player p)) ∨
       (∃ k, g.atQ
         (getSquareCoordinatesFromSquareOrTopLeftCoordinates c sizes.movement).ySquare
         (getSquareCoordinatesFromSquareOrTopLeftCoordinates c sizes.movement).xSquare =
           some (Square.powerUp k)))) →
      canMove c g sizes = true) := by
  constructor
  · rw [← Bool.not_eq_true]
    unfold canMove
    simp only [Bool.and_eq_true, Bool.not_eq_true', decide_eq_false_iff_not]
    tauto
  · rintro ⟨hx0, hx1, hy0, hy1, htile⟩
    unfold canMove
    simp only [Bool.and_eq_true, Bool.not_eq_true', decide_eq_false_iff_not]
    have hno : ¬(g.atQ
        (getSquareCoordinatesFromSquareOrTopLeftCoordinates c sizes.movement).ySquare
        (getSquareCoordinatesFromSquareOrTopLeftCoordinates c sizes.movement).xSquare =
          some Square.Breaking ∨
        g.atQ (getSquareCoordinatesFromSquareOrTopLeftCoordinates c sizes.movement).ySquare
          (getSquareCoordinatesFromSquareOrTopLeftCoordinates c sizes.movement).xSquare =
            some Square.NonBreaking ∨
        g.atQ (getSquareCoordinatesFromSquareOrTopLeftCoordinates c sizes.movement).ySquare
          (getSquareCoordinatesFromSquareOrTopLeftCoordinates c sizes.movement).xSquare =
            some Square.Bomb) := by
      rcases htile with h | h | h | ⟨p, h⟩ | ⟨k, h⟩ <;> rw [h] <;>
        rintro (he | he | he) <;> simp at he
    have hnh : ¬((getSquareCoordinatesFromSquareOrTopLeftCoordinates c
        sizes.movement).xSquare < 0 ∨
        (getSquareCoordinatesFromSquareOrTopLeftCoordinates c sizes.movement).xSquare >
          (sizes.map : ℚ) - 1) := by
      rintro (h | h) <;> linarith
    have hnv : ¬((getSquareCoordinatesFromSquareOrTopLeftCoordinates c
        sizes.movement).ySquare < 0 ∨
        (getSquareCoordinatesFromSquareOrTopLeftCoordinates c sizes.movement).ySquare >
          (sizes.map : ℚ) - 1) := by
      rintro (h | h) <;> linarith
    tauto

/-! ## C10 — `canMove` on misaligned coordinates -/

/-- C10: `canMove` is total on misaligned input — a target pixel coordinate
that is not an exact multiple of the movement unit makes the cell lookup
yield `undefined` rather than fault — and whenever such a target's
(fractional) grid quotients lie within `[0, mapSize-1]` on both axes,
`canMove` returns true: the missing tile is not an obstacle. -/
theorem canMove_misaligned_true (g : GameMap) (sizes : GameSizes)
    (top left : ℚ) (hu : sizes.movement ≠ 0)
    (hmis : ¬((∃ k : ℤ, top = (k : ℚ) * sizes.movement) ∧
              (∃ k : ℤ, left = (k : ℚ) * sizes.movement)))
    (hx0 : 0 ≤ left / sizes.movement)
    (hx1 : left / sizes.movement ≤ (sizes.map : ℚ) - 1)
    (hy0 : 0 ≤ top / sizes.movement)
    (hy1 : top / sizes.movement ≤ (sizes.map : ℚ) - 1) :
    canMove (Coordinates.topLeft ⟨top, left⟩) g sizes = true := by
  have hnone : g.atQ (top / sizes.movement) (left / sizes.movement) = none := by
    unfold GameMap.atQ
    rcases not_and_or.mp hmis with h | h
    · have hni : qIndex g.size (top / sizes.movement) = none :=
        qIndex_eq_none_of_not_int _ _ (fun k hk => h ⟨k, (div_eq_iff hu).mp hk⟩)
      rw [hni]
    · have hni : qIndex g.size (left / sizes.movement) = none :=
        qIndex_eq_none_of_not_int _ _ (fun k hk => h ⟨k, (div_eq_iff hu).mp hk⟩)
      rw [hni]
      cases qIndex g.size (top / sizes.movement) <;> rfl
  have hsq : getSquareCoordinatesFromSquareOrTopLeftCoordinates
      (Coordinates.topLeft ⟨top, left⟩) sizes.movement =
      ⟨left / sizes.movement, top / sizes.movement⟩ := rfl
  unfold canMove
  simp only [hsq, hnone, Bool.and_eq_true, Bool.not_eq_true',
    decide_eq_false_iff_not]
  have h1 : ¬((none : Option Square) = some Square.Breaking ∨
      (none : Option Square) = some Square.NonBreaking ∨
      (none : Option Square) = some Square.Bomb) := by
    rintro (h | h | h) <;> simp at h
  have h2 : ¬(left / sizes.movement < 0 ∨
      left / sizes.movement > (sizes.map : ℚ) - 1) := by
    rintro (h | h) <;> linarith
  have h3 : ¬(top / sizes.movement < 0 ∨
      top / sizes.movement > (sizes.map : ℚ) - 1) := by
    rintro (h | h) <;> linarith
  tauto

/-- A 3×3 all-Empty map, for concrete instances. -/
def emptyMap3 : GameMap := { size := 3, tiles := fun _ _ => Square.Empty }

/-- Sizes for a 3×3 map with movement unit 2. -/
def sizes3 : GameSizes :=
  { map := 3, character := 2, tile := 2, movement := 2, bomb := 1 }

/-- Witness for C10: the misaligned target `(top 1, left 0)` with movement
unit 2 (grid quotients `(1/2, 0)`, inside `[0, 2]`) is accepted. -/
theorem canMove_misaligned_true_witness :
    canMove (Coordinates.topLeft ⟨1, 0⟩) emptyMap3 sizes3 = true :=
  canMove_misaligned_true emptyMap3 sizes3 1 0
    (by norm_num [sizes3])
    (by
      rintro ⟨⟨k, hk⟩, -⟩
      simp only [sizes3] at hk
      have h2 : ((2 * k : ℤ) : ℚ) = ((1 : ℤ) : ℚ) := by push_cast; linarith
      have h3 : (2 * k : ℤ) = 1 := Int.cast_injective h2
      omega)
    (by norm_num [sizes3]) (by norm_num [sizes3])
    (by norm_num [sizes3]) (by norm_num [sizes3])

/-! ## C8 — `generateDefaultGameState` -/

/-- C8 (amended): `generateDefaultGameState` builds the map from the passed
config's map size and block-tile chance, starts with no bombs, no dropped
power-ups and animation counter 0 — but the config it stamps into the state
is `generateDefaultGameConfig`, not the passed config. -/
theorem generateDefaultGameState_fields (config : GameConfig)
    (rand : ℕ → ℕ → ℕ) :
    (generateDefaultGameState (some config) rand).gameMap =
        generateRandomGameMap config.sizes.map config.tiles.blockTileChance
          none rand ∧
      (generateDefaultGameState (some config) rand).bombs = [] ∧
      (generateDefaultGameState (some config) rand).powerUps = [] ∧
      (generateDefaultGameState (some config) rand).animationCounter = 0 ∧
      (generateDefaultGameState (some config) rand).config =
        generateDefaultGameConfig :=
  ⟨rfl, rfl, rfl, rfl, rfl⟩

/-- The default config with block-tile chance 2 instead of 1. -/
def configChanceTwo : GameConfig :=
  { generateDefaultGameConfig with tiles := { blockTileChance := 2 } }

/-- C8 counterexample: passing a config whose block-tile chance is 2, the
returned state's stamped config is still the default config (chance 1), so
it differs from the passed config. -/
theorem generateDefaultGameState_config_ne_passed :
    (generateDefaultGameState (some configChanceTwo)
      (fun _ _ => 0)).config ≠ configChanceTwo := by
  intro h
  have h2 : (1 : ℕ) = 2 := congrArg (fun cc => cc.tiles.blockTileChance) h
  exact absurd h2 (by decide)

/-! ## C4 — map generation honours forbidden cells -/

/-- C4: for every map size, block-tile chance in `[1, 10]`, random draw
family, and forbidden coordinate list (an explicit one, or the default
start-corner list when omitted), every forbidden coordinate that addresses a
cell of the generated map holds `Empty` there. -/
theorem generateRandomGameMap_forbidden_empty (mapSize blockTileChance : ℕ)
    (h1 : 1 ≤ blockTileChance) (h10 : blockTileChance ≤ 10)
    (forbiddenCoordinates : Option (List SquareCoordinates))
    (rand : ℕ → ℕ → ℕ) (c : SquareCoordinates)
    (hc : c ∈ forbiddenCoordinates.getD (getForbiddenStartCoordinates mapSize))
    (yi xi : ℕ) (hy : c.ySquare = (yi : ℚ)) (hx : c.xSquare = (xi : ℚ)) :
    (generateRandomGameMap mapSize blockTileChance forbiddenCoordinates
        rand).tiles yi xi = Square.Empty := by
  have hp : (forbiddenCoordinates.getD (getForbiddenStartCoordinates mapSize)).any
      (fun d => decide (d.ySquare = (yi : ℚ)) &&
        decide (d.xSquare = (xi : ℚ))) = true :=
    List.any_eq_true.mpr ⟨c, hc, by rw [hy, hx]; simp⟩
  simp [generateRandomGameMap, hp]
  intro hno
  exact absurd hx (hno c hc hy)

/-- Witness for C4: map size 3, chance 5, default forbidden list, a draw
family that always picks the Breaking tile; the P1 start corner `(0,0)` is
forbidden and ends up Empty. -/
theorem generateRandomGameMap_forbidden_empty_witness :
    (generateRandomGameMap 3 5 none (fun _ _ => 1)).tiles 0 0 = Square.Empty :=
  generateRandomGameMap_forbidden_empty 3 5 (by decide) (by decide) none
    (fun _ _ => 1) ⟨0, 0⟩
    (by simp [getForbiddenStartCoordinates,
      getDefaultPlayerStartSquareCoordinates])
    0 0 (by norm_num) (by norm_num)

/-! ## Ray-walk lemmas -/

/-- Once `shouldContinue` is false, the remaining iterations push nothing. -/
theorem explosionRayLoop_stopped (g : GameMap) (N : ℕ) (f : Bool) (dx dy : ℚ)
    (j : ℕ) (x y : ℚ) : explosionRayLoop g N f dx dy j x y false = [] := by
  induction j generalizing x y with
  | zero => rfl
  | succ j ih => rw [explosionRayLoop]; simp only [Bool.not_false, if_true]; exact ih x y

theorem mem_ite_singleton {α : Type} {b : Bool} {c a : α}
    (h : c ∈ (if b then [a] else [])) : c = a := by
  cases b
  · simp at h
  · simpa using h

/-- Every coordinate a ray walk pushes lies `k` steps along the walk's
direction from its start, for some `1 ≤ k ≤ fuel`, at a position that passed
the boundary check. -/
theorem explosionRayLoop_mem_shape (g : GameMap) (N : ℕ) (f : Bool)
    (dx dy : ℚ) (j : ℕ) (x y : ℚ) (sc : Bool) (c : SquareCoordinates)
    (hc : c ∈ explosionRayLoop g N f dx dy j x y sc) :
    ∃ k : ℕ, 1 ≤ k ∧ k ≤ j ∧ c.xSquare = x + k * dx ∧ c.ySquare = y + k * dy ∧
      isSquareOutsideBoundaries (x + k * dx) N = false ∧
      isSquareOutsideBoundaries (y + k * dy) N = false := by
  induction j generalizing x y sc with
  | zero => simp [explosionRayLoop] at hc
  | succ j ih =>
    have hrec : ∀ b : Bool, c ∈ explosionRayLoop g N f dx dy j (x + dx) (y + dy) b →
        ∃ k : ℕ, 1 ≤ k ∧ k ≤ j + 1 ∧ c.xSquare = x + k * dx ∧
          c.ySquare = y + k * dy ∧
          isSquareOutsideBoundaries (x + k * dx) N = false ∧
          isSquareOutsideBoundaries (y + k * dy) N = false := by
      intro b hb
      obtain ⟨k, h1, h2, h3, h4, h5, h6⟩ := ih (x + dx) (y + dy) b hb
      have ex : x + dx + (k : ℚ) * dx = x + ((k + 1 : ℕ) : ℚ) * dx := by
        push_cast; ring
      have ey : y + dy + (k : ℚ) * dy = y + ((k + 1 : ℕ) : ℚ) * dy := by
        push_cast; ring
      exact ⟨k + 1, by omega, by omega, by rw [h3, ex], by rw [h4, ey],
        by rw [← ex]; exact h5, by rw [← ey]; exact h6⟩
    cases sc with
    | false =>
      rw [explosionRayLoop] at hc
      simp only [Bool.not_false, if_true] at hc
      obtain ⟨k, h1, h2, h3, h4, h5, h6⟩ := ih x y false hc
      exact ⟨k, h1, by omega, h3, h4, h5, h6⟩
    | true =>
      rw [explosionRayLoop] at hc
      simp only [Bool.not_true, Bool.false_eq_true, if_false] at hc
      cases hout : isSquareOutsideBoundaries (x + dx) N ||
          isSquareOutsideBoundaries (y + dy) N with
      | true =>
        rw [hout] at hc
        simp only [if_true] at hc
        exact hrec true hc
      | false =>
        rw [hout] at hc
        simp only [Bool.false_eq_true, if_false] at hc
        have hhead : c = ⟨x + dx, y + dy⟩ →
            ∃ k : ℕ, 1 ≤ k ∧ k ≤ j + 1 ∧ c.xSquare = x + k * dx ∧
              c.ySquare = y + k * dy ∧
              isSquareOutsideBoundaries (x + k * dx) N = false ∧
              isSquareOutsideBoundaries (y + k * dy) N = false := by
          intro he
          have hbounds := Bool.or_eq_false_iff.mp hout
          have ex : x + ((1 : ℕ) : ℚ) * dx = x + dx := by push_cast; ring
          have ey : y + ((1 : ℕ) : ℚ) * dy = y + dy := by push_cast; ring
          refine ⟨1, le_refl 1, by omega, ?_, ?_, ?_, ?_⟩
          · rw [he, ex]
          · rw [he, ey]
          · rw [ex]; exact hbounds.1
          · rw [ey]; exact hbounds.2
        rcases hat : g.atQ (y + dy) (x + dx) with _ | sq
        · rw [hat] at hc
          exact hrec true hc
        · rw [hat] at hc
          cases f with
          | false =>
            rcases sq with _ | _ | _ | _ | _ | _ | p | pk
            case Breaking =>
              rcases List.mem_cons.mp hc with he | hc3
              · exact hhead he
              · exact hrec false hc3
            case NonBreaking => exact hrec false hc
            all_goals {
              rcases List.mem_cons.mp hc with he | hc3
              · exact hhead he
              · exact hrec true hc3 }
          | true =>
            rcases sq with _ | _ | _ | _ | _ | _ | p | pk
            case FireHorizontal =>
              rcases List.mem_cons.mp hc with he | hc3
              · exact hhead he
              · rcases List.mem_cons.mp hc3 with he | hc4
                · exact hhead he
                · exact hrec true hc4
            case FireVertical =>
              rcases List.mem_cons.mp hc with he | hc3
              · exact hhead he
              · rcases List.mem_cons.mp hc3 with he | hc4
                · exact hhead he
                · exact hrec true hc4
            all_goals exact hrec true hc

/-- With `checkOnlyFire` set, every coordinate a ray walk pushes holds an
active fire marker at walk time. -/
theorem explosionRayLoop_fireOnly_mem (g : GameMap) (N : ℕ) (dx dy : ℚ)
    (j : ℕ) (x y : ℚ) (sc : Bool) (c : SquareCoordinates)
    (hc : c ∈ explosionRayLoop g N true dx dy j x y sc) :
    g.atQ c.ySquare c.xSquare = some Square.FireHorizontal ∨
      g.atQ c.ySquare c.xSquare = some Square.FireVertical := by
  induction j generalizing x y sc with
  | zero => simp [explosionRayLoop] at hc
  | succ j ih =>
    cases sc with
    | false =>
      rw [explosionRayLoop] at hc
      simp only [Bool.not_false, if_true] at hc
      exact ih x y false hc
    | true =>
      rw [explosionRayLoop] at hc
      simp only [Bool.not_true, Bool.false_eq_true, if_false] at hc
      cases hout : isSquareOutsideBoundaries (x + dx) N ||
          isSquareOutsideBoundaries (y + dy) N with
      | true =>
        rw [hout] at hc
        simp only [if_true] at hc
        exact ih _ _ _ hc
      | false =>
        rw [hout] at hc
        simp only [Bool.false_eq_true, if_false] at hc
        rcases hat : g.atQ (y + dy) (x + dx) with _ | sq
        · rw [hat] at hc
          exact ih _ _ _ hc
        · rw [hat] at hc
          rcases sq with _ | _ | _ | _ | _ | _ | p | pk
          case FireHorizontal =>
            rcases List.mem_cons.mp hc with he | hc3
            · rw [he]; exact Or.inl hat
            · rcases List.mem_cons.mp hc3 with he | hc4
              · rw [he]; exact Or.inl hat
              · exact ih _ _ _ hc4
          case FireVertical =>
            rcases List.mem_cons.mp hc with he | hc3
            · rw [he]; exact Or.inr hat
            · rcases List.mem_cons.mp hc3 with he | hc4
              · rw [he]; exact Or.inr hat
              · exact ih _ _ _ hc4
          all_goals exact ih _ _ _ hc

set_option maxRecDepth 4000 in
/-- With `checkOnlyFire` unset and integer start coordinates, the code's ray
walk records exactly what the spec's ray walk records as on-fire, provided
the boundary check's map size is the map's own size. -/
theorem explosionRayLoop_eq_spec (g : GameMap) (N : ℕ) (hsz : g.size = N)
    (dxi dyi : ℤ) (j : ℕ) (xi yi : ℤ) :
    explosionRayLoop g N false (dxi : ℚ) (dyi : ℚ) j (xi : ℚ) (yi : ℚ) true =
      (specExplosionRay g N (dxi : ℚ) (dyi : ℚ) j (xi : ℚ) (yi : ℚ)).onFire := by
  subst hsz
  induction j generalizing xi yi with
  | zero => rfl
  | succ j ih =>
    rw [explosionRayLoop, specExplosionRay]
    simp only [Bool.not_true, Bool.false_eq_true, if_false]
    have hx : (xi : ℚ) + (dxi : ℚ) = ((xi + dxi : ℤ) : ℚ) := by push_cast; ring
    have hy : (yi : ℚ) + (dyi : ℚ) = ((yi + dyi : ℤ) : ℚ) := by push_cast; ring
    cases hout : isSquareOutsideBoundaries ((xi : ℚ) + (dxi : ℚ)) g.size ||
        isSquareOutsideBoundaries ((yi : ℚ) + (dyi : ℚ)) g.size with
    | true =>
      simp only [if_true]
      rw [hx, hy]
      exact ih _ _
    | false =>
      simp only [Bool.false_eq_true, if_false]
      have hb := Bool.or_eq_false_iff.mp hout
      have hbx := (isSquareOutsideBoundaries_eq_false_iff _ _).mp hb.1
      have hby := (isSquareOutsideBoundaries_eq_false_iff _ _).mp hb.2
      have hicx : 0 ≤ xi + dxi ∧ xi + dxi < (g.size : ℤ) := by
        constructor
        · have h := hbx.1; rw [hx] at h; exact_mod_cast h
        · have h := hbx.2; rw [hx] at h; exact_mod_cast h
      have hicy : 0 ≤ yi + dyi ∧ yi + dyi < (g.size : ℤ) := by
        constructor
        · have h := hby.1; rw [hy] at h; exact_mod_cast h
        · have h := hby.2; rw [hy] at h; exact_mod_cast h
      have hat : g.atQ ((yi : ℚ) + (dyi : ℚ)) ((xi : ℚ) + (dxi : ℚ)) =
          some (g.tiles (yi + dyi).toNat (xi + dxi).toNat) := by
        rw [hx, hy]
        unfold GameMap.atQ
        rw [qIndex_intCast, qIndex_intCast, if_pos hicy, if_pos hicx]
      rw [hat]
      cases htile : g.tiles (yi + dyi).toNat (xi + dxi).toNat
      all_goals simp only [Bool.false_and, Bool.false_eq_true, if_false,
        List.nil_append, explosionRayLoop_stopped, hx, hy, ih]

/-- With `checkOnlyFire` unset, each single ray walk is duplicate-free. -/
theorem explosionRayLoop_nodup (g : GameMap) (N : ℕ) (dx dy : ℚ)
    (hd : ¬(dx = 0 ∧ dy = 0)) (j : ℕ) (x y : ℚ) (sc : Bool) :
    (explosionRayLoop g N false dx dy j x y sc).Nodup := by
  induction j generalizing x y sc with
  | zero => exact List.nodup_nil
  | succ j ih =>
    cases sc with
    | false =>
      rw [explosionRayLoop]
      simp only [Bool.not_false, if_true]
      exact ih x y false
    | true =>
      rw [explosionRayLoop]
      simp only [Bool.not_true, Bool.false_eq_true, if_false]
      cases hout : isSquareOutsideBoundaries (x + dx) N ||
          isSquareOutsideBoundaries (y + dy) N with
      | true =>
        simp only [if_true]
        exact ih _ _ _
      | false =>
        simp only [Bool.false_eq_true, if_false]
        cases hat : g.atQ (y + dy) (x + dx)
        case none => exact ih _ _ _
        case some sq =>
          rcases sq with _ | _ | _ | _ | _ | _ | p | pk
          case Breaking => simp [explosionRayLoop_stopped]
          case NonBreaking => simp [explosionRayLoop_stopped]
          all_goals {
            refine List.nodup_cons.mpr ⟨?_, ih _ _ _⟩
            intro hmem
            obtain ⟨k, hk1, -, h3, h4, -, -⟩ :=
              explosionRayLoop_mem_shape g N false dx dy j (x + dx) (y + dy)
                true _ hmem
            have hkq : ((k : ℕ) : ℚ) ≠ 0 := Nat.cast_ne_zero.mpr (by omega)
            have h3' : x + dx = x + dx + (k : ℚ) * dx := h3
            have h4' : y + dy = y + dy + (k : ℚ) * dy := h4
            have hdx : dx = 0 := by
              have hz : (k : ℚ) * dx = 0 := by linarith
              rcases mul_eq_zero.mp hz with h | h
              · exact absurd h hkq
              · exact h
            have hdy : dy = 0 := by
              have hz : (k : ℚ) * dy = 0 := by linarith
              rcases mul_eq_zero.mp hz with h | h
              · exact absurd h hkq
              · exact h
            exact hd ⟨hdx, hdy⟩ }

/-- The spec walk's to-break list is exactly its on-fire list filtered down
to the cells whose tile is Breaking at walk time — which is what
`getTilesToBreak` computes per recorded cell. -/
theorem specExplosionRay_toBreak (g : GameMap) (N : ℕ) (dx dy : ℚ) (j : ℕ)
    (x y : ℚ) :
    (specExplosionRay g N dx dy j x y).toBreak =
      (specExplosionRay g N dx dy j x y).onFire.flatMap
        (fun c => getTilesToBreak g c.ySquare c.xSquare) := by
  induction j generalizing x y with
  | zero => rfl
  | succ j ih =>
    rw [specExplosionRay]
    cases hout : isSquareOutsideBoundaries (x + dx) N ||
        isSquareOutsideBoundaries (y + dy) N with
    | true =>
      simp only [if_true]
      exact ih _ _
    | false =>
      simp only [Bool.false_eq_true, if_false]
      cases hat : g.atQ (y + dy) (x + dx) with
      | none => simp [getTilesToBreak, hat, ih]
      | some sq =>
        rcases sq with _ | _ | _ | _ | _ | _ | p | pk <;>
          simp [getTilesToBreak, hat, ih]

/-- C1: with `fireOnly` unset and the bomb on an in-bounds grid coordinate,
the four cardinal ray walks of the explosion computation behave exactly as
the spec's walk describes — each visited in-bounds cell is recorded as
on-fire while the tile is neither Breaking nor NonBreaking; the first
Breaking tile is recorded as on-fire and to-break and ends the ray; the
first NonBreaking tile ends the ray unrecorded; out-of-bounds steps are
skipped without recording and without ending the ray (`specExplosionRay`
encodes exactly this walk, and the to-break record is what
`getTilesToBreak` extracts from the recorded cells). -/
theorem explosion_rays_match_spec (g : GameMap) (sizes : GameSizes)
    (hsz : g.size = sizes.map) (bX bY : ℤ)
    (hx0 : 0 ≤ bX) (hx1 : bX < (sizes.map : ℤ))
    (hy0 : 0 ≤ bY) (hy1 : bY < (sizes.map : ℤ)) (explosionSize : ℤ) :
    (getExplosionSquareCoordinatesFromBomb g
        (Coordinates.square ⟨(bX : ℚ), (bY : ℚ)⟩) explosionSize sizes
        false).vertical =
      (specExplosionRay g sizes.map 0 (-1) explosionSize.toNat (bX : ℚ)
          (bY : ℚ)).onFire ++
        (specExplosionRay g sizes.map 0 1 explosionSize.toNat (bX : ℚ)
          (bY : ℚ)).onFire ∧
    (getExplosionSquareCoordinatesFromBomb g
        (Coordinates.square ⟨(bX : ℚ), (bY : ℚ)⟩) explosionSize sizes
        false).horizontal =
      (specExplosionRay g sizes.map 1 0 explosionSize.toNat (bX : ℚ)
          (bY : ℚ)).onFire ++
        (specExplosionRay g sizes.map (-1) 0 explosionSize.toNat (bX : ℚ)
          (bY : ℚ)).onFire ∧
    (getExplosionSquareCoordinatesFromBomb g
        (Coordinates.square ⟨(bX : ℚ), (bY : ℚ)⟩) explosionSize sizes
        false).core = [⟨(bX : ℚ), (bY : ℚ)⟩] ∧
    (∀ dd ∈ [((0 : ℚ), (-1 : ℚ)), (1, 0), (0, 1), (-1, 0)],
      (specExplosionRay g sizes.map dd.1 dd.2 explosionSize.toNat (bX : ℚ)
          (bY : ℚ)).toBreak =
        ((specExplosionRay g sizes.map dd.1 dd.2 explosionSize.toNat (bX : ℚ)
            (bY : ℚ)).onFire).flatMap
          (fun c => getTilesToBreak g c.ySquare c.xSquare)) := by
  have h0 : ((0 : ℤ) : ℚ) = (0 : ℚ) := by norm_num
  have h1 : ((1 : ℤ) : ℚ) = (1 : ℚ) := by norm_num
  have hm1 : ((-1 : ℤ) : ℚ) = (-1 : ℚ) := by norm_num
  have hup := explosionRayLoop_eq_spec g sizes.map hsz 0 (-1)
    explosionSize.toNat bX bY
  have hdown := explosionRayLoop_eq_spec g sizes.map hsz 0 1
    explosionSize.toNat bX bY
  have hright := explosionRayLoop_eq_spec g sizes.map hsz 1 0
    explosionSize.toNat bX bY
  have hleft := explosionRayLoop_eq_spec g sizes.map hsz (-1) 0
    explosionSize.toNat bX bY
  rw [h0, hm1] at hup
  rw [h0, h1] at hdown
  rw [h0, h1] at hright
  rw [h0, hm1] at hleft
  refine ⟨?_, ?_, rfl, ?_⟩
  · show explosionRayLoop g sizes.map false 0 (-1) explosionSize.toNat
        (bX : ℚ) (bY : ℚ) true ++
      explosionRayLoop g sizes.map false 0 1 explosionSize.toNat
        (bX : ℚ) (bY : ℚ) true = _
    rw [hup, hdown]
  · show explosionRayLoop g sizes.map false 1 0 explosionSize.toNat
        (bX : ℚ) (bY : ℚ) true ++
      explosionRayLoop g sizes.map false (-1) 0 explosionSize.toNat
        (bX : ℚ) (bY : ℚ) true = _
    rw [hright, hleft]
  · intro dd _
    exact specExplosionRay_toBreak g sizes.map dd.1 dd.2 explosionSize.toNat
      (bX : ℚ) (bY : ℚ)

/-- Witness for C1: 3×3 all-Empty map, bomb at grid (1,1), explosion size 1;
the vertical bucket equals the spec's up-ray record followed by its down-ray
record. -/
theorem explosion_rays_match_spec_witness :
    (getExplosionSquareCoordinatesFromBomb emptyMap3
        (Coordinates.square ⟨((1 : ℤ) : ℚ), ((1 : ℤ) : ℚ)⟩) 1 sizes3
        false).vertical =
      (specExplosionRay emptyMap3 sizes3.map 0 (-1) (1 : ℤ).toNat ((1 : ℤ) : ℚ)
          ((1 : ℤ) : ℚ)).onFire ++
        (specExplosionRay emptyMap3 sizes3.map 0 1 (1 : ℤ).toNat ((1 : ℤ) : ℚ)
          ((1 : ℤ) : ℚ)).onFire :=
  (explosion_rays_match_spec emptyMap3 sizes3 rfl 1 1 (by decide) (by decide)
    (by decide) (by decide) 1).1

/-! ## C5 — `fireOnly` records only active fire -/

/-- C5: with `fireOnly` set, every cell recorded outside the core bucket
holds an active fire marker (`FireHorizontal` or `FireVertical`) at walk
time; equivalently no cell without an active fire marker is recorded — the
fire filter runs before the Breaking/NonBreaking stop classification ever
applies. -/
theorem explosion_fireOnly_records_only_fire (g : GameMap) (sizes : GameSizes)
    (hsz : g.size = sizes.map) (bX bY : ℤ)
    (hx0 : 0 ≤ bX) (hx1 : bX < (sizes.map : ℤ))
    (hy0 : 0 ≤ bY) (hy1 : bY < (sizes.map : ℤ)) (explosionSize : ℤ)
    (c : SquareCoordinates)
    (hc : c ∈ (getExplosionSquareCoordinatesFromBomb g
          (Coordinates.square ⟨(bX : ℚ), (bY : ℚ)⟩) explosionSize sizes
          true).horizontal ++
        (getExplosionSquareCoordinatesFromBomb g
          (Coordinates.square ⟨(bX : ℚ), (bY : ℚ)⟩) explosionSize sizes
          true).vertical) :
    g.atQ c.ySquare c.xSquare = some Square.FireHorizontal ∨
      g.atQ c.ySquare c.xSquare = some Square.FireVertical := by
  rcases List.mem_append.mp hc with h | h <;>
    rcases List.mem_append.mp h with h2 | h2 <;>
    exact explosionRayLoop_fireOnly_mem g sizes.map _ _ _ _ _ _ _ h2

/-- A 3×3 map with a fire marker at grid (x 1, y 0), otherwise Empty. -/
def fireMap3 : GameMap :=
  { size := 3
    tiles := fun y x =>
      if y = 0 ∧ x = 1 then Square.FireHorizontal else Square.Empty }

/-- Witness for C5: on `fireMap3` with the bomb at (1,1) and `fireOnly` set,
the recorded cell (1,0) indeed holds an active fire marker. -/
theorem explosion_fireOnly_records_only_fire_witness :
    fireMap3.atQ (⟨1, 0⟩ : SquareCoordinates).ySquare
        (⟨1, 0⟩ : SquareCoordinates).xSquare = some Square.FireHorizontal ∨
      fireMap3.atQ (⟨1, 0⟩ : SquareCoordinates).ySquare
        (⟨1, 0⟩ : SquareCoordinates).xSquare = some Square.FireVertical :=
  explosion_fireOnly_records_only_fire fireMap3 sizes3 rfl 1 1 (by decide)
    (by decide) (by decide) (by decide) 1 ⟨1, 0⟩
    (by
      refine List.mem_append.mpr (Or.inr (List.mem_append.mpr (Or.inl ?_)))
      show (⟨1, 0⟩ : SquareCoordinates) ∈ explosionRayLoop fireMap3 sizes3.map
        true 0 (-1) (1 : ℤ).toNat ((1 : ℤ) : ℚ) ((1 : ℤ) : ℚ) true
      have hup : explosionRayLoop fireMap3 sizes3.map true 0 (-1)
          (1 : ℤ).toNat ((1 : ℤ) : ℚ) ((1 : ℤ) : ℚ) true =
          [⟨1, 0⟩, ⟨1, 0⟩] := by
        norm_num [explosionRayLoop, isSquareOutsideBoundaries, GameMap.atQ,
          qIndex, fireMap3, sizes3]
      rw [hup]
      simp)

/-! ## C6 — duplicate-freedom of the explosion result -/

theorem mem_flatMap_filterlike {α : Type} (L : List α) (p : α → Prop)
    [DecidablePred p] (x : α) :
    x ∈ L.flatMap (fun c => if p c then [c] else []) ↔ x ∈ L ∧ p x := by
  simp only [List.mem_flatMap]
  constructor
  · rintro ⟨a, ha, hx⟩
    by_cases hp : p a
    · rw [if_pos hp] at hx
      simp only [List.mem_singleton] at hx
      subst hx
      exact ⟨ha, hp⟩
    · rw [if_neg hp] at hx
      simp at hx
  · rintro ⟨hx, hp⟩
    exact ⟨x, hx, by rw [if_pos hp]; simp⟩

theorem flatMap_filterlike_nodup {α : Type} (L : List α) (p : α → Prop)
    [DecidablePred p] (hL : L.Nodup) :
    (L.flatMap (fun c => if p c then [c] else [])).Nodup := by
  induction L with
  | nil => simp
  | cons a t ih =>
    rcases List.nodup_cons.mp hL with ⟨ha, ht⟩
    simp only [List.flatMap_cons]
    by_cases hp : p a
    · rw [if_pos hp]
      simp only [List.singleton_append]
      refine List.nodup_cons.mpr ⟨?_, ih ht⟩
      intro hmem
      exact ha ((mem_flatMap_filterlike t p a).mp hmem).1
    · rw [if_neg hp]
      simpa using ih ht

/-- C6 counterexample: with `fireOnly` set, a recorded fire cell is pushed
twice (once by the fire filter, once by the switch's default arm), so the
vertical bucket contains the cell (1,0) twice and is not duplicate-free. -/
theorem explosion_fireOnly_duplicate :
    ¬ ((getExplosionResults fireMap3 ⟨none, none, none, none⟩ ⟨2, 2⟩ 1 sizes3
        true).coordinatesToSetOnFire.vertical).Nodup := by
  have hv : (getExplosionResults fireMap3 ⟨none, none, none, none⟩ ⟨2, 2⟩ 1
      sizes3 true).coordinatesToSetOnFire.vertical =
      [⟨1, 0⟩, ⟨1, 0⟩] := by
    norm_num [getExplosionResults, getExplosionSquareCoordinatesFromBomb,
      getSquareCoordinatesFromSquareOrTopLeftCoordinates,
      topLeftCoordinatesToSquareCoordinates, explosionRayLoop,
      isSquareOutsideBoundaries, GameMap.atQ, qIndex, fireMap3, sizes3]
    intro h
    exact absurd (h (by decide)) (by decide)
  rw [hv]
  decide

/-- Unfolds `getExplosionSquareCoordinatesFromBomb` once the bomb's grid
conversion is known. -/
theorem getExplosionSquareCoordinatesFromBomb_eq (gameMap : GameMap)
    (coordinates : Coordinates) (explosionSize : ℤ) (sizes : GameSizes)
    (checkOnlyFire : Bool) (qx qy : ℚ)
    (hq : getSquareCoordinatesFromSquareOrTopLeftCoordinates coordinates
      sizes.movement = ⟨qx, qy⟩) :
    getExplosionSquareCoordinatesFromBomb gameMap coordinates explosionSize
        sizes checkOnlyFire =
      { horizontal := explosionRayLoop gameMap sizes.map checkOnlyFire 1 0
            explosionSize.toNat qx qy true ++
          explosionRayLoop gameMap sizes.map checkOnlyFire (-1) 0
            explosionSize.toNat qx qy true
        vertical := explosionRayLoop gameMap sizes.map checkOnlyFire 0 (-1)
            explosionSize.toNat qx qy true ++
          explosionRayLoop gameMap sizes.map checkOnlyFire 0 1
            explosionSize.toNat qx qy true
        core := [⟨qx, qy⟩] } := by
  unfold getExplosionSquareCoordinatesFromBomb
  rw [hq]

/-- Unfolds `getExplosionResults` once the walk's buckets are known. -/
theorem getExplosionResults_eq (gameMap : GameMap) (players : PlayersRecord)
    (bombCoordinates : TopLeftCoordinates) (explosionSize : ℤ)
    (sizes : GameSizes) (checkOnlyFire : Bool) (E : CoordinatesToSetOnFire)
    (hE : getExplosionSquareCoordinatesFromBomb gameMap
        (Coordinates.topLeft bombCoordinates) explosionSize sizes
        checkOnlyFire = E) :
    getExplosionResults gameMap players bombCoordinates explosionSize sizes
        checkOnlyFire =
      { coordinatesToSetOnFire :=
          { horizontal := E.horizontal
            vertical := E.vertical
            core := E.core }
        tilesToBreak := (E.horizontal ++ E.vertical ++ E.core).flatMap
          (fun c => getTilesToBreak gameMap c.ySquare c.xSquare) } := by
  unfold getExplosionResults
  rw [hE]

set_option maxHeartbeats 1000000 in
/-- C6 (amended): with `fireOnly` unset, the explosion result is
duplicate-free — no grid coordinate appears more than once across or within
the horizontal/vertical/core buckets — and `tilesToBreak` is a
duplicate-free list containing exactly the recorded cells whose tile at walk
time is Breaking.  (With `fireOnly` set, recorded fire cells are pushed
twice; see the counterexample.) -/
theorem explosion_results_nodup (g : GameMap) (sizes : GameSizes)
    (hsz : g.size = sizes.map) (hu : sizes.movement ≠ 0) (bX bY : ℕ)
    (hbx : bX < sizes.map) (hby : bY < sizes.map) (explosionSize : ℤ)
    (players : PlayersRecord) :
    ((getExplosionResults g players
          ⟨(bY : ℚ) * sizes.movement, (bX : ℚ) * sizes.movement⟩
          explosionSize sizes false).coordinatesToSetOnFire.horizontal ++
        (getExplosionResults g players
          ⟨(bY : ℚ) * sizes.movement, (bX : ℚ) * sizes.movement⟩
          explosionSize sizes false).coordinatesToSetOnFire.vertical ++
        (getExplosionResults g players
          ⟨(bY : ℚ) * sizes.movement, (bX : ℚ) * sizes.movement⟩
          explosionSize sizes false).coordinatesToSetOnFire.core).Nodup ∧
      (getExplosionResults g players
        ⟨(bY : ℚ) * sizes.movement, (bX : ℚ) * sizes.movement⟩
        explosionSize sizes false).tilesToBreak.Nodup ∧
      (∀ c, c ∈ (getExplosionResults g players
          ⟨(bY : ℚ) * sizes.movement, (bX : ℚ) * sizes.movement⟩
          explosionSize sizes false).tilesToBreak ↔
        c ∈ ((getExplosionResults g players
            ⟨(bY : ℚ) * sizes.movement, (bX : ℚ) * sizes.movement⟩
            explosionSize sizes false).coordinatesToSetOnFire.horizontal ++
          (getExplosionResults g players
            ⟨(bY : ℚ) * sizes.movement, (bX : ℚ) * sizes.movement⟩
            explosionSize sizes false).coordinatesToSetOnFire.vertical ++
          (getExplosionResults g players
            ⟨(bY : ℚ) * sizes.movement, (bX : ℚ) * sizes.movement⟩
            explosionSize sizes false).coordinatesToSetOnFire.core) ∧
          g.atQ c.ySquare c.xSquare = some Square.Breaking) := by
  have hbomb : getSquareCoordinatesFromSquareOrTopLeftCoordinates
      (Coordinates.topLeft ⟨(bY : ℚ) * sizes.movement,
        (bX : ℚ) * sizes.movement⟩) sizes.movement =
      ⟨(bX : ℚ), (bY : ℚ)⟩ := by
    simp only [getSquareCoordinatesFromSquareOrTopLeftCoordinates,
      topLeftCoordinatesToSquareCoordinates]
    rw [SquareCoordinates.mk.injEq]
    exact ⟨mul_div_cancel_right₀ _ hu, mul_div_cancel_right₀ _ hu⟩
  have hE := getExplosionSquareCoordinatesFromBomb_eq g
    (Coordinates.topLeft ⟨(bY : ℚ) * sizes.movement,
      (bX : ℚ) * sizes.movement⟩) explosionSize sizes false (bX : ℚ) (bY : ℚ)
    hbomb
  have hR := getExplosionResults_eq g players
    ⟨(bY : ℚ) * sizes.movement, (bX : ℚ) * sizes.movement⟩ explosionSize
    sizes false _ hE
  rw [hR]
  dsimp only
  have hno : ∀ dx dy : ℚ, ¬(dx = 0 ∧ dy = 0) →
      (explosionRayLoop g sizes.map false dx dy explosionSize.toNat (bX : ℚ)
        (bY : ℚ) true).Nodup :=
    fun dx dy hd => explosionRayLoop_nodup g sizes.map dx dy hd _ _ _ _
  have hdisj : ∀ dx1 dy1 dx2 dy2 : ℚ,
      (∀ k l : ℚ, 1 ≤ k → 1 ≤ l →
        ¬(k * dx1 = l * dx2 ∧ k * dy1 = l * dy2)) →
      List.Disjoint
        (explosionRayLoop g sizes.map false dx1 dy1 explosionSize.toNat
          (bX : ℚ) (bY : ℚ) true)
        (explosionRayLoop g sizes.map false dx2 dy2 explosionSize.toNat
          (bX : ℚ) (bY : ℚ) true) := by
    intro dx1 dy1 dx2 dy2 hsep c hc1 hc2
    obtain ⟨k, hk1, -, h3, h4, -, -⟩ :=
      explosionRayLoop_mem_shape g sizes.map false dx1 dy1 _ _ _ _ _ hc1
    obtain ⟨l, hl1, -, h5, h6, -, -⟩ :=
      explosionRayLoop_mem_shape g sizes.map false dx2 dy2 _ _ _ _ _ hc2
    refine hsep (k : ℚ) (l : ℚ) ?_ ?_ ⟨?_, ?_⟩
    · exact_mod_cast hk1
    · exact_mod_cast hl1
    · have h7 := h3.symm.trans h5
      linarith
    · have h7 := h4.symm.trans h6
      linarith
  have hnb : ∀ dx dy : ℚ, ¬(dx = 0 ∧ dy = 0) →
      List.Disjoint
        (explosionRayLoop g sizes.map false dx dy explosionSize.toNat
          (bX : ℚ) (bY : ℚ) true)
        [(⟨(bX : ℚ), (bY : ℚ)⟩ : SquareCoordinates)] := by
    intro dx dy hd c hc1 hc2
    simp only [List.mem_singleton] at hc2
    subst hc2
    obtain ⟨k, hk1, -, h3, h4, -, -⟩ :=
      explosionRayLoop_mem_shape g sizes.map false dx dy _ _ _ _ _ hc1
    have h3' : (bX : ℚ) = (bX : ℚ) + (k : ℚ) * dx := h3
    have h4' : (bY : ℚ) = (bY : ℚ) + (k : ℚ) * dy := h4
    have hkq : ((k : ℕ) : ℚ) ≠ 0 := Nat.cast_ne_zero.mpr (by omega)
    apply hd
    constructor
    · rcases mul_eq_zero.mp (by linarith : (k : ℚ) * dx = 0) with h | h
      · exact absurd h hkq
      · exact h
    · rcases mul_eq_zero.mp (by linarith : (k : ℚ) * dy = 0) with h | h
      · exact absurd h hkq
      · exact h
  have nRi := hno 1 0 (by norm_num)
  have nLe := hno (-1) 0 (by norm_num)
  have nU := hno 0 (-1) (by norm_num)
  have nD := hno 0 1 (by norm_num)
  have dRiLe := hdisj 1 0 (-1) 0 (by rintro k l hk hl ⟨h1, h2⟩; linarith)
  have dUD := hdisj 0 (-1) 0 1 (by rintro k l hk hl ⟨h1, h2⟩; linarith)
  have dRiU := hdisj 1 0 0 (-1) (by rintro k l hk hl ⟨h1, h2⟩; linarith)
  have dRiD := hdisj 1 0 0 1 (by rintro k l hk hl ⟨h1, h2⟩; linarith)
  have dLeU := hdisj (-1) 0 0 (-1) (by rintro k l hk hl ⟨h1, h2⟩; linarith)
  have dLeD := hdisj (-1) 0 0 1 (by rintro k l hk hl ⟨h1, h2⟩; linarith)
  have bRi := hnb 1 0 (by norm_num)
  have bLe := hnb (-1) 0 (by norm_num)
  have bU := hnb 0 (-1) (by norm_num)
  have bD := hnb 0 1 (by norm_num)
  have nodupL : ((explosionRayLoop g sizes.map false 1 0 explosionSize.toNat
        (bX : ℚ) (bY : ℚ) true ++
      explosionRayLoop g sizes.map false (-1) 0 explosionSize.toNat (bX : ℚ)
        (bY : ℚ) true) ++
      (explosionRayLoop g sizes.map false 0 (-1) explosionSize.toNat (bX : ℚ)
          (bY : ℚ) true ++
        explosionRayLoop g sizes.map false 0 1 explosionSize.toNat (bX : ℚ)
          (bY : ℚ) true) ++
      [(⟨(bX : ℚ), (bY : ℚ)⟩ : SquareCoordinates)]).Nodup := by
    refine List.Nodup.append (List.Nodup.append ?_ ?_ ?_)
      (List.nodup_singleton _) ?_
    · exact List.Nodup.append nRi nLe dRiLe
    · exact List.Nodup.append nU nD dUD
    · exact List.disjoint_append_left.mpr
        ⟨List.disjoint_append_right.mpr ⟨dRiU, dRiD⟩,
          List.disjoint_append_right.mpr ⟨dLeU, dLeD⟩⟩
    · exact List.disjoint_append_left.mpr
        ⟨List.disjoint_append_left.mpr ⟨bRi, bLe⟩,
          List.disjoint_append_left.mpr ⟨bU, bD⟩⟩
  refine ⟨nodupL, ?_, ?_⟩
  · exact flatMap_filterlike_nodup _
      (fun c => g.atQ c.ySquare c.xSquare = some Square.Breaking) nodupL
  · exact fun c => mem_flatMap_filterlike _
      (fun d => g.atQ d.ySquare d.xSquare = some Square.Breaking) c

/-- Witness for C6 (amended): 3×3 all-Empty map, bomb placed at pixel
(2, 2) — grid (1,1) — explosion size 1, `fireOnly` unset: the combined
bucket list is duplicate-free. -/
theorem explosion_results_nodup_witness :
    ((getExplosionResults emptyMap3 ⟨none, none, none, none⟩
          ⟨(1 : ℕ) * sizes3.movement, (1 : ℕ) * sizes3.movement⟩
          1 sizes3 false).coordinatesToSetOnFire.horizontal ++
        (getExplosionResults emptyMap3 ⟨none, none, none, none⟩
          ⟨(1 : ℕ) * sizes3.movement, (1 : ℕ) * sizes3.movement⟩
          1 sizes3 false).coordinatesToSetOnFire.vertical ++
        (getExplosionResults emptyMap3 ⟨none, none, none, none⟩
          ⟨(1 : ℕ) * sizes3.movement, (1 : ℕ) * sizes3.movement⟩
          1 sizes3 false).coordinatesToSetOnFire.core).Nodup :=
  (explosion_results_nodup emptyMap3 sizes3 rfl (by norm_num [sizes3]) 1 1
    (by decide) (by decide) 1 ⟨none, none, none, none⟩).1

/-! ## C3 — explosionSize ≤ 0 -/

/-- A 1×1 map whose single tile is Breaking. -/
def breakingMap1 : GameMap :=
  { size := 1, tiles := fun _ _ => Square.Breaking }

/-- Sizes for a 1×1 map with movement unit 1. -/
def sizes1 : GameSizes :=
  { map := 1, character := 1, tile := 1, movement := 1, bomb := 1 }

/-- C3 counterexample: with explosion size 0 and the bomb standing on a
Breaking tile, `tilesToBreak` is not empty — the aggregation pass collects
the core cell's own Breaking tile. -/
theorem explosion_size_zero_tilesToBreak_ne_nil :
    (getExplosionResults breakingMap1 ⟨none, none, none, none⟩ ⟨0, 0⟩ 0 sizes1
      false).tilesToBreak ≠ [] := by
  have h : (getExplosionResults breakingMap1 ⟨none, none, none, none⟩ ⟨0, 0⟩ 0
      sizes1 false).tilesToBreak = [⟨0, 0⟩] := by
    norm_num [getExplosionResults, getExplosionSquareCoordinatesFromBomb,
      getSquareCoordinatesFromSquareOrTopLeftCoordinates,
      topLeftCoordinatesToSquareCoordinates, explosionRayLoop,
      getTilesToBreak, GameMap.atQ, qIndex, breakingMap1, sizes1]
  rw [h]
  simp

/-- C3 (amended): for an in-bounds bomb and `explosionSize ≤ 0`,
`getExplosionResults` puts exactly the core (bomb) cell on fire — core
bucket only, horizontal and vertical empty — and `tilesToBreak` is empty
unless the bomb's own tile is Breaking, in which case it is exactly the
core cell. -/
theorem explosion_size_nonpos_core_only (g : GameMap) (sizes : GameSizes)
    (hsz : g.size = sizes.map) (hu : sizes.movement ≠ 0) (bX bY : ℕ)
    (hbx : bX < sizes.map) (hby : bY < sizes.map) (explosionSize : ℤ)
    (hn : explosionSize ≤ 0) (players : PlayersRecord) :
    (getExplosionResults g players
        ⟨(bY : ℚ) * sizes.movement, (bX : ℚ) * sizes.movement⟩ explosionSize
        sizes false).coordinatesToSetOnFire =
      ⟨[], [], [⟨(bX : ℚ), (bY : ℚ)⟩]⟩ ∧
    (getExplosionResults g players
        ⟨(bY : ℚ) * sizes.movement, (bX : ℚ) * sizes.movement⟩ explosionSize
        sizes false).tilesToBreak =
      (if g.tiles bY bX = Square.Breaking then [⟨(bX : ℚ), (bY : ℚ)⟩]
        else []) := by
  have hbomb : getSquareCoordinatesFromSquareOrTopLeftCoordinates
      (Coordinates.topLeft ⟨(bY : ℚ) * sizes.movement,
        (bX : ℚ) * sizes.movement⟩) sizes.movement =
      ⟨(bX : ℚ), (bY : ℚ)⟩ := by
    simp only [getSquareCoordinatesFromSquareOrTopLeftCoordinates,
      topLeftCoordinatesToSquareCoordinates]
    rw [SquareCoordinates.mk.injEq]
    exact ⟨mul_div_cancel_right₀ _ hu, mul_div_cancel_right₀ _ hu⟩
  have hE := getExplosionSquareCoordinatesFromBomb_eq g
    (Coordinates.topLeft ⟨(bY : ℚ) * sizes.movement,
      (bX : ℚ) * sizes.movement⟩) explosionSize sizes false (bX : ℚ) (bY : ℚ)
    hbomb
  have h0 : explosionSize.toNat = 0 := Int.toNat_of_nonpos hn
  rw [h0] at hE
  have hE' : getExplosionSquareCoordinatesFromBomb g
      (Coordinates.topLeft ⟨(bY : ℚ) * sizes.movement,
        (bX : ℚ) * sizes.movement⟩) explosionSize sizes false =
      ⟨[], [], [⟨(bX : ℚ), (bY : ℚ)⟩]⟩ := by
    rw [hE]
    rfl
  have hR := getExplosionResults_eq g players
    ⟨(bY : ℚ) * sizes.movement, (bX : ℚ) * sizes.movement⟩ explosionSize
    sizes false _ hE'
  rw [hR]
  refine ⟨rfl, ?_⟩
  have hat : g.atQ (bY : ℚ) (bX : ℚ) = some (g.tiles bY bX) :=
    atQ_natCast g bY bX (by rw [hsz]; exact hby) (by rw [hsz]; exact hbx)
  simp only [List.nil_append, List.flatMap_cons, List.flatMap_nil,
    List.append_nil, getTilesToBreak]
  rw [hat]
  by_cases ht : g.tiles bY bX = Square.Breaking
  · rw [if_pos (congrArg some ht), if_pos ht]
  · rw [if_neg (fun h => ht (Option.some.inj h)), if_neg ht]

/-- Witness for C3 (amended): 3×3 all-Empty map, bomb at grid (1,1),
explosion size 0: the fire set is the core cell only. -/
theorem explosion_size_nonpos_core_only_witness :
    (getExplosionResults emptyMap3 ⟨none, none, none, none⟩
        ⟨(1 : ℕ) * sizes3.movement, (1 : ℕ) * sizes3.movement⟩ 0 sizes3
        false).coordinatesToSetOnFire =
      ⟨[], [], [⟨((1 : ℕ) : ℚ), ((1 : ℕ) : ℚ)⟩]⟩ :=
  (explosion_size_nonpos_core_only emptyMap3 sizes3 rfl
    (by norm_num [sizes3]) 1 1 (by decide) (by decide) 0 (by decide)
    ⟨none, none, none, none⟩).1

/-! ## C9 — boundary safety of the explosion computation -/

/-- Every coordinate at which a ray walk dereferences the map has passed the
boundary check: it lies inside `[0, N)` on both axes. -/
theorem explosionRayDereferences_mem (g : GameMap) (N : ℕ) (f : Bool)
    (dx dy : ℚ) (j : ℕ) (x y : ℚ) (sc : Bool) (c : SquareCoordinates)
    (hc : c ∈ explosionRayDereferences g N f dx dy j x y sc) :
    0 ≤ c.xSquare ∧ c.xSquare < (N : ℚ) ∧ 0 ≤ c.ySquare ∧
      c.ySquare < (N : ℚ) := by
  induction j generalizing x y sc with
  | zero => simp [explosionRayDereferences] at hc
  | succ j ih =>
    cases sc with
    | false =>
      rw [explosionRayDereferences] at hc
      simp only [Bool.not_false, if_true] at hc
      exact ih x y false hc
    | true =>
      rw [explosionRayDereferences] at hc
      simp only [Bool.not_true, Bool.false_eq_true, if_false] at hc
      cases hout : isSquareOutsideBoundaries (x + dx) N ||
          isSquareOutsideBoundaries (y + dy) N with
      | true =>
        rw [hout] at hc
        simp only [if_true] at hc
        exact ih _ _ _ hc
      | false =>
        rw [hout] at hc
        simp only [Bool.false_eq_true, if_false] at hc
        have hb := Bool.or_eq_false_iff.mp hout
        have hbx := (isSquareOutsideBoundaries_eq_false_iff _ _).mp hb.1
        have hby := (isSquareOutsideBoundaries_eq_false_iff _ _).mp hb.2
        rcases List.mem_cons.mp hc with he | hc2
        · subst he
          exact ⟨hbx.1, hbx.2, hby.1, hby.2⟩
        · rcases hat : g.atQ (y + dy) (x + dx) with _ | sq
          · rw [hat] at hc2
            exact ih _ _ _ hc2
          · rw [hat] at hc2
            cases f <;> rcases sq with _ | _ | _ | _ | _ | _ | p | pk <;>
              exact ih _ _ _ hc2

/-- Every coordinate a ray walk records lies inside `[0, N)` on both axes. -/
theorem explosionRayLoop_mem_inBounds (g : GameMap) (N : ℕ) (f : Bool)
    (dx dy : ℚ) (j : ℕ) (x y : ℚ) (sc : Bool) (c : SquareCoordinates)
    (hc : c ∈ explosionRayLoop g N f dx dy j x y sc) :
    0 ≤ c.xSquare ∧ c.xSquare < (N : ℚ) ∧ 0 ≤ c.ySquare ∧
      c.ySquare < (N : ℚ) := by
  obtain ⟨k, -, -, h3, h4, h5, h6⟩ :=
    explosionRayLoop_mem_shape g N f dx dy j x y sc c hc
  have h5' := (isSquareOutsideBoundaries_eq_false_iff _ _).mp h5
  have h6' := (isSquareOutsideBoundaries_eq_false_iff _ _).mp h6
  refine ⟨?_, ?_, ?_, ?_⟩
  · rw [h3]; exact h5'.1
  · rw [h3]; exact h5'.2
  · rw [h4]; exact h6'.1
  · rw [h4]; exact h6'.2

/-- Unfolds `getExplosionDereferences` once the bomb's grid conversion and
the walk's buckets are known. -/
theorem getExplosionDereferences_eq (gameMap : GameMap)
    (bombCoordinates : TopLeftCoordinates) (explosionSize : ℤ)
    (sizes : GameSizes) (checkOnlyFire : Bool) (qx qy : ℚ)
    (E : CoordinatesToSetOnFire)
    (hq : getSquareCoordinatesFromSquareOrTopLeftCoordinates
      (Coordinates.topLeft bombCoordinates) sizes.movement = ⟨qx, qy⟩)
    (hE : getExplosionSquareCoordinatesFromBomb gameMap
        (Coordinates.topLeft bombCoordinates) explosionSize sizes
        checkOnlyFire = E) :
    getExplosionDereferences gameMap bombCoordinates explosionSize sizes
        checkOnlyFire =
      explosionRayDereferences gameMap sizes.map checkOnlyFire 0 (-1)
          explosionSize.toNat qx qy true ++
        explosionRayDereferences gameMap sizes.map checkOnlyFire 1 0
          explosionSize.toNat qx qy true ++
        explosionRayDereferences gameMap sizes.map checkOnlyFire 0 1
          explosionSize.toNat qx qy true ++
        explosionRayDereferences gameMap sizes.map checkOnlyFire (-1) 0
          explosionSize.toNat qx qy true ++
        (E.horizontal ++ E.vertical ++ E.core) := by
  unfold getExplosionDereferences
  rw [hq, hE]

set_option maxHeartbeats 1000000 in
/-- C9: for an in-bounds bomb, the explosion computation dereferences the
map only at coordinates inside `[0, N)` on both axes (every read follows a
passed boundary check), and every coordinate it returns — fire buckets and
`tilesToBreak` — lies inside `[0, N)` on both axes. -/
theorem explosion_stays_in_bounds (g : GameMap) (sizes : GameSizes)
    (hsz : g.size = sizes.map) (hu : sizes.movement ≠ 0) (bX bY : ℕ)
    (hbx : bX < sizes.map) (hby : bY < sizes.map) (explosionSize : ℤ)
    (checkOnlyFire : Bool) (players : PlayersRecord) :
    (∀ c ∈ getExplosionDereferences g
        ⟨(bY : ℚ) * sizes.movement, (bX : ℚ) * sizes.movement⟩ explosionSize
        sizes checkOnlyFire,
      0 ≤ c.xSquare ∧ c.xSquare < (sizes.map : ℚ) ∧ 0 ≤ c.ySquare ∧
        c.ySquare < (sizes.map : ℚ)) ∧
    (∀ c, (c ∈ (getExplosionResults g players
          ⟨(bY : ℚ) * sizes.movement, (bX : ℚ) * sizes.movement⟩
          explosionSize sizes checkOnlyFire).coordinatesToSetOnFire.horizontal ++
        (getExplosionResults g players
          ⟨(bY : ℚ) * sizes.movement, (bX : ℚ) * sizes.movement⟩
          explosionSize sizes checkOnlyFire).coordinatesToSetOnFire.vertical ++
        (getExplosionResults g players
          ⟨(bY : ℚ) * sizes.movement, (bX : ℚ) * sizes.movement⟩
          explosionSize sizes checkOnlyFire).coordinatesToSetOnFire.core ∨
        c ∈ (getExplosionResults g players
          ⟨(bY : ℚ) * sizes.movement, (bX : ℚ) * sizes.movement⟩
          explosionSize sizes checkOnlyFire).tilesToBreak) →
      0 ≤ c.xSquare ∧ c.xSquare < (sizes.map : ℚ) ∧ 0 ≤ c.ySquare ∧
        c.ySquare < (sizes.map : ℚ)) := by
  have hbomb : getSquareCoordinatesFromSquareOrTopLeftCoordinates
      (Coordinates.topLeft ⟨(bY : ℚ) * sizes.movement,
        (bX : ℚ) * sizes.movement⟩) sizes.movement =
      ⟨(bX : ℚ), (bY : ℚ)⟩ := by
    simp only [getSquareCoordinatesFromSquareOrTopLeftCoordinates,
      topLeftCoordinatesToSquareCoordinates]
    rw [SquareCoordinates.mk.injEq]
    exact ⟨mul_div_cancel_right₀ _ hu, mul_div_cancel_right₀ _ hu⟩
  have hE := getExplosionSquareCoordinatesFromBomb_eq g
    (Coordinates.topLeft ⟨(bY : ℚ) * sizes.movement,
      (bX : ℚ) * sizes.movement⟩) explosionSize sizes checkOnlyFire (bX : ℚ)
    (bY : ℚ) hbomb
  have hD := getExplosionDereferences_eq g
    ⟨(bY : ℚ) * sizes.movement, (bX : ℚ) * sizes.movement⟩ explosionSize
    sizes checkOnlyFire (bX : ℚ) (bY : ℚ) _ hbomb hE
  have hR := getExplosionResults_eq g players
    ⟨(bY : ℚ) * sizes.movement, (bX : ℚ) * sizes.movement⟩ explosionSize
    sizes checkOnlyFire _ hE
  have hcore : ∀ c : SquareCoordinates,
      c ∈ [(⟨(bX : ℚ), (bY : ℚ)⟩ : SquareCoordinates)] →
      0 ≤ c.xSquare ∧ c.xSquare < (sizes.map : ℚ) ∧ 0 ≤ c.ySquare ∧
        c.ySquare < (sizes.map : ℚ) := by
    intro c hmem
    simp only [List.mem_singleton] at hmem
    subst hmem
    refine ⟨Nat.cast_nonneg bX, ?_, Nat.cast_nonneg bY, ?_⟩
    · show ((bX : ℕ) : ℚ) < (sizes.map : ℚ)
      exact_mod_cast hbx
    · show ((bY : ℕ) : ℚ) < (sizes.map : ℚ)
      exact_mod_cast hby
  have hbuckets : ∀ c : SquareCoordinates,
      c ∈ ((getExplosionSquareCoordinatesFromBomb g
          (Coordinates.topLeft ⟨(bY : ℚ) * sizes.movement,
            (bX : ℚ) * sizes.movement⟩) explosionSize sizes
          checkOnlyFire).horizontal ++
        (getExplosionSquareCoordinatesFromBomb g
          (Coordinates.topLeft ⟨(bY : ℚ) * sizes.movement,
            (bX : ℚ) * sizes.movement⟩) explosionSize sizes
          checkOnlyFire).vertical ++
        (getExplosionSquareCoordinatesFromBomb g
          (Coordinates.topLeft ⟨(bY : ℚ) * sizes.movement,
            (bX : ℚ) * sizes.movement⟩) explosionSize sizes
          checkOnlyFire).core) →
      0 ≤ c.xSquare ∧ c.xSquare < (sizes.map : ℚ) ∧ 0 ≤ c.ySquare ∧
        c.ySquare < (sizes.map : ℚ) := by
    intro c hmem
    rw [hE] at hmem
    rcases List.mem_append.mp hmem with h | h
    · rcases List.mem_append.mp h with h2 | h2 <;>
        rcases List.mem_append.mp h2 with h3 | h3 <;>
        exact explosionRayLoop_mem_inBounds g sizes.map checkOnlyFire _ _ _ _
          _ _ _ h3
    · exact hcore c h
  constructor
  · intro c hc
    rw [hD] at hc
    rcases List.mem_append.mp hc with h | h
    · rcases List.mem_append.mp h with h2 | h2
      · rcases List.mem_append.mp h2 with h3 | h3
        · rcases List.mem_append.mp h3 with h4 | h4 <;>
            exact explosionRayDereferences_mem g sizes.map checkOnlyFire _ _
              _ _ _ _ _ h4
        · exact explosionRayDereferences_mem g sizes.map checkOnlyFire _ _ _
            _ _ _ _ h3
      · exact explosionRayDereferences_mem g sizes.map checkOnlyFire _ _ _ _
          _ _ _ h2
    · exact hbuckets c (by rw [hE]; exact h)
  · intro c hc
    rcases hc with h | h
    · apply hbuckets c
      rw [hE]
      rw [hR] at h
      exact h
    · rw [hR] at h
      have h2 := (mem_flatMap_filterlike _
        (fun d => g.atQ d.ySquare d.xSquare = some Square.Breaking) c).mp h
      apply hbuckets c
      rw [hE]
      exact h2.1

/-- Witness for C9: 3×3 all-Empty map, bomb at grid (1,1), explosion size 1
with `fireOnly` unset — the dereferenced coordinate (2,1) lies in bounds. -/
theorem explosion_stays_in_bounds_witness :
    0 ≤ (⟨2, 1⟩ : SquareCoordinates).xSquare ∧
      (⟨2, 1⟩ : SquareCoordinates).xSquare < (sizes3.map : ℚ) ∧
      0 ≤ (⟨2, 1⟩ : SquareCoordinates).ySquare ∧
      (⟨2, 1⟩ : SquareCoordinates).ySquare < (sizes3.map : ℚ) :=
  (explosion_stays_in_bounds emptyMap3 sizes3 rfl (by norm_num [sizes3]) 1 1
    (by decide) (by decide) 1 false ⟨none, none, none, none⟩).2
    ⟨2, 1⟩
    (Or.inl (by
      have hbomb : getSquareCoordinatesFromSquareOrTopLeftCoordinates
          (Coordinates.topLeft ⟨((1 : ℕ) : ℚ) * sizes3.movement,
            ((1 : ℕ) : ℚ) * sizes3.movement⟩) sizes3.movement =
          ⟨((1 : ℕ) : ℚ), ((1 : ℕ) : ℚ)⟩ := by
        norm_num [getSquareCoordinatesFromSquareOrTopLeftCoordinates,
          topLeftCoordinatesToSquareCoordinates, sizes3]
      have hE := getExplosionSquareCoordinatesFromBomb_eq emptyMap3
        (Coordinates.topLeft ⟨((1 : ℕ) : ℚ) * sizes3.movement,
          ((1 : ℕ) : ℚ) * sizes3.movement⟩) 1 sizes3 false ((1 : ℕ) : ℚ)
        ((1 : ℕ) : ℚ) hbomb
      have hR := getExplosionResults_eq emptyMap3 ⟨none, none, none, none⟩
        ⟨((1 : ℕ) : ℚ) * sizes3.movement, ((1 : ℕ) : ℚ) * sizes3.movement⟩ 1
        sizes3 false _ hE
      rw [hR]
      have hright : explosionRayLoop emptyMap3 sizes3.map false 1 0
          (1 : ℤ).toNat ((1 : ℕ) : ℚ) ((1 : ℕ) : ℚ) true = [⟨2, 1⟩] := by
        norm_num [explosionRayLoop, isSquareOutsideBoundaries, GameMap.atQ,
          qIndex, emptyMap3, sizes3]
      refine List.mem_append.mpr (Or.inl (List.mem_append.mpr (Or.inl ?_)))
      show (⟨2, 1⟩ : SquareCoordinates) ∈
        explosionRayLoop emptyMap3 sizes3.map false 1 0 (1 : ℤ).toNat
          ((1 : ℕ) : ℚ) ((1 : ℕ) : ℚ) true ++
        explosionRayLoop emptyMap3 sizes3.map false (-1) 0 (1 : ℤ).toNat
          ((1 : ℕ) : ℚ) ((1 : ℕ) : ℚ) true
      rw [hright]
      simp))

end BombaMan
